import Mathlib

/-!
Shallow embedding of the gesture-driven particle system
(Keplers Chaos — Saturn Hand Control).

The embedding models, over the real numbers:
* the temporal smoothing / decay state machine for the driving scalar
  (App.tsx render loop together with the SaturnParticles useFrame lerp),
* the vertex-shader position function (SaturnParticles.tsx vertexShader),
* the gesture-signal extraction (services/visionService.ts, detectHand),
* the particle population generator (SaturnParticles.tsx useMemo block).
-/

namespace KeplersChaos

/-! ### SignalSmoother: the driving scalar and its two transitions -/

/-- THREE.MathUtils.lerp: linear interpolation (1 - t) * x + t * y. -/
def lerp (x y t : ℝ) : ℝ := (1 - t) * x + t * y

/-- App.tsx loop, no-detection branch: the driving scalar decays by the
factor 0.95 when no hand is detected. -/
noncomputable def decayStep (e : ℝ) : ℝ := e * 0.95

/-- SaturnParticles useFrame: the expansion uniform is lerped toward the
latest reading with smoothing coefficient 0.1. -/
noncomputable def smoothStep (e r : ℝ) : ℝ := lerp e r 0.1

/-- Iterated decay: the value of the driving scalar after k consecutive
no-detection ticks starting from e0. -/
noncomputable def decayIter (e0 : ℝ) : ℕ → ℝ
  | 0 => e0
  | k + 1 => decayStep (decayIter e0 k)

/-- One transition of the SignalSmoother state machine: a tick carries
either a fresh raw reading (lerp toward it with coefficient 0.1,
SaturnParticles useFrame) or no reading (multiplicative decay by 0.95,
App.tsx loop). -/
noncomputable def ssStep (e : ℝ) : Option ℝ → ℝ
  | some r => smoothStep e r
  | none => decayStep e

/-- Run the SignalSmoother over a list of ticks from the initial value 0
(App.tsx: useState(0), SaturnParticles: uExpansion initialised to 0). -/
noncomputable def runSmoother (l : List (Option ℝ)) : ℝ := l.foldl ssStep 0

/-- Clamp to [0,1] as written in detectHand:
Math.max(0, Math.min(1, v)). -/
noncomputable def clamp01 (v : ℝ) : ℝ := max 0 (min 1 v)

/-! ### Helper lemmas for the smoother -/

theorem decayIter_eq_pow (e0 : ℝ) : ∀ k : ℕ, decayIter e0 k = e0 * 0.95 ^ k := by
  intro k
  induction k with
  | zero => simp [decayIter]
  | succ n ih => rw [decayIter, decayStep, ih]; ring

theorem smoothStep_mem_Icc {e r : ℝ} (he : e ∈ Set.Icc (0 : ℝ) 1)
    (hr : r ∈ Set.Icc (0 : ℝ) 1) : smoothStep e r ∈ Set.Icc (0 : ℝ) 1 := by
  obtain ⟨he0, he1⟩ := he
  obtain ⟨hr0, hr1⟩ := hr
  unfold smoothStep lerp
  constructor <;> nlinarith

theorem decayStep_mem_Icc {e : ℝ} (he : e ∈ Set.Icc (0 : ℝ) 1) :
    decayStep e ∈ Set.Icc (0 : ℝ) 1 := by
  obtain ⟨he0, he1⟩ := he
  unfold decayStep
  constructor <;> nlinarith

theorem foldl_ssStep_mem_Icc :
    ∀ (l : List (Option ℝ)) (e : ℝ), e ∈ Set.Icc (0 : ℝ) 1 →
      (∀ r : ℝ, some r ∈ l → r ∈ Set.Icc (0 : ℝ) 1) →
      l.foldl ssStep e ∈ Set.Icc (0 : ℝ) 1 := by
  intro l
  induction l with
  | nil => intro e he _; simpa using he
  | cons i t ih =>
    intro e he hl
    rw [List.foldl_cons]
    refine ih (ssStep e i) ?_ ?_
    · cases i with
      | none => exact decayStep_mem_Icc he
      | some r => exact smoothStep_mem_Icc he (hl r (List.mem_cons_self _ _))
    · intro r hr
      exact hl r (List.mem_cons_of_mem _ hr)

/-! ### Claims about the smoother -/

/-- Claim C2: starting from any e0 > 0, after k consecutive no-reading
decay transitions the driving scalar equals e0 * 0.95 ^ k; the sequence is
strictly decreasing, stays strictly positive (so it never goes negative),
and tends to 0. -/
theorem decay_transitions_law (e0 : ℝ) (h : 0 < e0) :
    (∀ k : ℕ, decayIter e0 k = e0 * 0.95 ^ k) ∧
    (∀ k : ℕ, decayIter e0 (k + 1) < decayIter e0 k) ∧
    (∀ k : ℕ, 0 < decayIter e0 k) ∧
    Filter.Tendsto (fun k => decayIter e0 k) Filter.atTop (nhds 0) := by
  have hpos : ∀ k : ℕ, 0 < decayIter e0 k := by
    intro k
    rw [decayIter_eq_pow]
    positivity
  refine ⟨decayIter_eq_pow e0, ?_, hpos, ?_⟩
  · intro k
    have hk := hpos k
    rw [decayIter, decayStep]
    nlinarith
  · have hbase : Filter.Tendsto (fun k : ℕ => (0.95 : ℝ) ^ k) Filter.atTop (nhds 0) :=
      tendsto_pow_atTop_nhds_zero_of_lt_one (by norm_num) (by norm_num)
    have hmul := hbase.const_mul e0
    rw [mul_zero] at hmul
    refine hmul.congr ?_
    intro k
    rw [decayIter_eq_pow]

/-- Witness for C2 at e0 = 1, k = 2. -/
theorem decay_transitions_law_witness : decayIter 1 2 = 1 * 0.95 ^ 2 :=
  (decay_transitions_law 1 (by norm_num)).1 2

/-- Claim C3: for a raw reading r in [0,1] and previous value e0 in [0,1],
one reading-available transition yields exactly e0 + 0.1 * (r - e0), which
coincides with its own clamp to [0,1]. -/
theorem reading_transition_lerp (e0 r : ℝ) (he : e0 ∈ Set.Icc (0 : ℝ) 1)
    (hr : r ∈ Set.Icc (0 : ℝ) 1) :
    smoothStep e0 r = e0 + 0.1 * (r - e0) ∧
    smoothStep e0 r = clamp01 (e0 + 0.1 * (r - e0)) := by
  obtain ⟨he0, he1⟩ := he
  obtain ⟨hr0, hr1⟩ := hr
  have heq : smoothStep e0 r = e0 + 0.1 * (r - e0) := by
    unfold smoothStep lerp; ring
  refine ⟨heq, ?_⟩
  rw [heq]
  unfold clamp01
  rw [min_eq_right (by nlinarith), max_eq_right (by nlinarith)]

/-- Witness for C3 at e0 = 0, r = 1. -/
theorem reading_transition_lerp_witness :
    smoothStep 0 1 = 0 + 0.1 * (1 - 0) :=
  (reading_transition_lerp 0 1 (by norm_num) (by norm_num)).1

/-- Claim C8: the driving scalar starts at 0, and along any sequence of
ticks whose readings (when present) lie in [0,1], the value after every
transition remains in [0,1]: both SignalSmoother transitions preserve the
invariant. -/
theorem expansion_invariant (l : List (Option ℝ))
    (h : ∀ r : ℝ, some r ∈ l → r ∈ Set.Icc (0 : ℝ) 1) :
    runSmoother [] = 0 ∧ ∀ n : ℕ, runSmoother (l.take n) ∈ Set.Icc (0 : ℝ) 1 := by
  refine ⟨rfl, ?_⟩
  intro n
  refine foldl_ssStep_mem_Icc (l.take n) 0 (by norm_num) ?_
  intro r hr
  exact h r (List.mem_of_mem_take hr)

/-- Witness for C8 on the tick sequence [some 1, none]. -/
theorem expansion_invariant_witness :
    runSmoother ([some 1, none].take 2) ∈ Set.Icc (0 : ℝ) 1 := by
  refine (expansion_invariant [some 1, none] ?_).2 2
  intro r hr
  simp only [List.mem_cons, List.not_mem_nil, or_false] at hr
  rcases hr with hr | hr
  · rw [Option.some.injEq] at hr
    rw [hr]; constructor <;> norm_num
  · exact absurd hr (by simp)

/-- Claim C10: one reading-available transition never overshoots: the new
value lies between min(e, r) and max(e, r), and the distance to the target
is exactly 0.9 times the previous distance. -/
theorem smoothing_no_overshoot (e r : ℝ) :
    min e r ≤ smoothStep e r ∧ smoothStep e r ≤ max e r ∧
    |r - smoothStep e r| = 0.9 * |r - e| := by
  have heq : smoothStep e r = e + 0.1 * (r - e) := by unfold smoothStep lerp; ring
  have habs : r - smoothStep e r = 0.9 * (r - e) := by rw [heq]; ring
  refine ⟨?_, ?_, ?_⟩
  · rcases le_total e r with h | h
    · rw [min_eq_left h, heq]; nlinarith
    · rw [min_eq_right h, heq]; nlinarith
  · rcases le_total e r with h | h
    · rw [max_eq_right h, heq]; nlinarith
    · rw [max_eq_left h, heq]; nlinarith
  · rw [habs, abs_mul, abs_of_pos (by norm_num : (0.9 : ℝ) > 0)]

/-! ### Vertex shader: chaos factor and position (SaturnParticles.tsx) -/

/-- GLSL clamp(x, lo, hi) = min(max(x, lo), hi). -/
noncomputable def clampG (x lo hi : ℝ) : ℝ := min (max x lo) hi

/-- GLSL smoothstep(edge0, edge1, x):
t = clamp((x - edge0)/(edge1 - edge0), 0, 1); result t * t * (3 - 2 * t). -/
noncomputable def smoothstepG (edge0 edge1 x : ℝ) : ℝ :=
  (clampG ((x - edge0) / (edge1 - edge0)) 0 1) * (clampG ((x - edge0) / (edge1 - edge0)) 0 1) *
    (3 - 2 * clampG ((x - edge0) / (edge1 - edge0)) 0 1)

/-- The chaos mix factor of the shader: smoothstep(0.7, 1.0, uExpansion). -/
noncomputable def chaosFactor (expansion : ℝ) : ℝ := smoothstepG 0.7 1.0 expansion

/-- A 3-component vector of reals, standing for a GLSL vec3. -/
structure Vec3 where
  x : ℝ
  y : ℝ
  z : ℝ

/-- Componentwise vector addition. -/
def vadd (a b : Vec3) : Vec3 := ⟨a.x + b.x, a.y + b.y, a.z + b.z⟩

/-- Vector scaled by a scalar. -/
def vscale (a : Vec3) (s : ℝ) : Vec3 := ⟨a.x * s, a.y * s, a.z * s⟩

/-- GLSL mix(x, y, a) = x * (1 - a) + y * a, componentwise on vec3. -/
def vmix (a b : Vec3) (t : ℝ) : Vec3 :=
  ⟨a.x * (1 - t) + b.x * t, a.y * (1 - t) + b.y * t, a.z * (1 - t) + b.z * t⟩

/-- The noiseVec of the shader: three phase-shifted sinusoids of t and the
per-particle random index. -/
noncomputable def noiseVec (t idx : ℝ) : Vec3 :=
  ⟨Real.sin (t * 10 + idx), Real.cos (t * 12 + idx * 2), Real.sin (t * 8 + idx * 3)⟩

/-- The model-space position computation of the vertex shader (before the
modelViewMatrix), transcribed from SaturnParticles.tsx vertexShader: orbit
speed, current angle, orbital position, chaos blend and system scale. -/
noncomputable def shaderPosition (speed orbitRadius angleOffset randomness t expansion : ℝ) :
    Vec3 :=
  let orbitSpeed := speed / Real.sqrt (orbitRadius + 0.1)
  let currentAngle := angleOffset + orbitSpeed * t * 0.5
  let px := Real.cos currentAngle * orbitRadius
  let pz := Real.sin currentAngle * orbitRadius
  let py := Real.sin (currentAngle * 2.0 + angleOffset) * (0.1 * orbitRadius)
  let orbitalPos : Vec3 := ⟨px, py, pz⟩
  let chaosPos := vadd orbitalPos (vscale (noiseVec t randomness) (expansion * 3.0))
  let finalPos := vmix orbitalPos chaosPos (chaosFactor expansion)
  vscale finalPos (1 + expansion * 5.0)

/-- The claimed position law, written following the specification text:
angularSpeed = baseSpeed / sqrt(orbitRadius + 0.1); angle = angleOffset +
angularSpeed * t * 0.5; orbital position (cos(angle) * r, sin(2 * angle +
angleOffset) * 0.1 * r, sin(angle) * r); final position the chaos-factor
blend of the orbital position and the orbital position plus the
expansion-scaled jitter, all multiplied by 1 + expansion * 5. -/
noncomputable def specPosition (baseSpeed orbitRadius angleOffset randomSeed t expansion : ℝ) :
    Vec3 :=
  let angularSpeed := baseSpeed / Real.sqrt (orbitRadius + 0.1)
  let angle := angleOffset + angularSpeed * t * 0.5
  let orbital : Vec3 :=
    ⟨Real.cos angle * orbitRadius,
     Real.sin (2 * angle + angleOffset) * 0.1 * orbitRadius,
     Real.sin angle * orbitRadius⟩
  let jitter := vscale (noiseVec t randomSeed) (expansion * 3.0)
  vscale (vmix orbital (vadd orbital jitter) (chaosFactor expansion)) (1 + expansion * 5)

/-! ### Helper lemmas for the chaos factor -/

theorem cubic_mono {a b : ℝ} (ha : 0 ≤ a) (hab : a ≤ b) (hb : b ≤ 1) :
    a * a * (3 - 2 * a) ≤ b * b * (3 - 2 * b) := by
  have h1 : a * b ≤ b := mul_le_of_le_one_left (le_trans ha hab) (le_trans hab hb)
  have h2 : a * b ≤ a := mul_le_of_le_one_right ha hb
  nlinarith [mul_nonneg (sub_nonneg.2 hab) (sub_nonneg.2 hab), sq_nonneg (a + b),
    mul_nonneg ha (sub_nonneg.2 hab), mul_nonneg (le_trans ha hab) (sub_nonneg.2 hab)]

theorem clampG_mem_Icc (x : ℝ) : clampG x 0 1 ∈ Set.Icc (0 : ℝ) 1 := by
  unfold clampG
  constructor
  · exact le_min (le_max_right x 0) (by norm_num)
  · exact min_le_right _ 1

theorem clampG_mono {x y : ℝ} (h : x ≤ y) : clampG x 0 1 ≤ clampG y 0 1 := by
  unfold clampG
  exact min_le_min (max_le_max h le_rfl) le_rfl

/-! ### Claims about the shader -/

/-- Claim C4: on [0,1] the chaos mix factor is monotonically
non-decreasing in the expansion, equals 0 for every expansion at most 0.7,
and equals 1 at expansion 1. -/
theorem chaosFactor_monotone_bounds :
    (∀ a b : ℝ, a ∈ Set.Icc (0 : ℝ) 1 → b ∈ Set.Icc (0 : ℝ) 1 → a ≤ b →
      chaosFactor a ≤ chaosFactor b) ∧
    (∀ e : ℝ, e ≤ 0.7 → chaosFactor e = 0) ∧
    chaosFactor 1 = 1 := by
  refine ⟨?_, ?_, ?_⟩
  · intro a b _ _ hab
    unfold chaosFactor smoothstepG
    have hdiv : (a - 0.7) / (1.0 - 0.7) ≤ (b - 0.7) / (1.0 - 0.7) := by
      apply div_le_div_of_nonneg_right _ (by norm_num)
      linarith
    have hc := clampG_mono hdiv
    obtain ⟨hc0, hc1⟩ := clampG_mem_Icc ((a - 0.7) / (1.0 - 0.7))
    obtain ⟨_, hd1⟩ := clampG_mem_Icc ((b - 0.7) / (1.0 - 0.7))
    exact cubic_mono hc0 hc hd1
  · intro e he
    unfold chaosFactor smoothstepG clampG
    have hdiv : (e - 0.7) / (1.0 - 0.7) ≤ 0 := by
      apply div_nonpos_of_nonpos_of_nonneg _ (by norm_num)
      linarith
    rw [max_eq_right hdiv, min_eq_left (by norm_num : (0 : ℝ) ≤ 1)]
    ring
  · unfold chaosFactor smoothstepG clampG
    norm_num

/-- Witness for C4 at a = 0.5, b = 0.9 and e = 0.6. -/
theorem chaosFactor_monotone_bounds_witness :
    chaosFactor 0.5 ≤ chaosFactor 0.9 ∧ chaosFactor 0.6 = 0 := by
  constructor
  · exact chaosFactor_monotone_bounds.1 0.5 0.9 (by constructor <;> norm_num)
      (by constructor <;> norm_num) (by norm_num)
  · exact chaosFactor_monotone_bounds.2.1 0.6 (by norm_num)

/-- Claim C5: the position computation of the shader coincides, for every
particle attribute tuple, time and expansion, with the specified law:
inverse-square-root angular speed, the given orbital coordinates, the
chaos-factor blend of the orbital position with the jitter-displaced one,
scaled uniformly by 1 + expansion * 5. -/
theorem shaderPosition_eq_spec
    (speed orbitRadius angleOffset randomness t expansion : ℝ) :
    shaderPosition speed orbitRadius angleOffset randomness t expansion =
      specPosition speed orbitRadius angleOffset randomness t expansion := by
  unfold shaderPosition specPosition
  simp only [vadd, vscale, vmix, Vec3.mk.injEq]
  refine ⟨?_, ?_, ?_⟩
  · ring
  · have harg : (angleOffset + speed / Real.sqrt (orbitRadius + 0.1) * t * 0.5) * 2.0 +
        angleOffset =
        2 * (angleOffset + speed / Real.sqrt (orbitRadius + 0.1) * t * 0.5) + angleOffset := by
      ring
    rw [harg]
    ring
  · ring

/-! ### Gesture-signal extraction (services/visionService.ts) -/

/-- A normalized 2D landmark point (detectHand reads only x and y). -/
structure Landmark where
  x : ℝ
  y : ℝ

/-- A well-formed landmark set: the wrist (index 0) and the five fingertip
points (indices 4, 8, 12, 16, 20). -/
structure HandLandmarks where
  wrist : Landmark
  thumbTip : Landmark
  indexTip : Landmark
  middleTip : Landmark
  ringTip : Landmark
  pinkyTip : Landmark

/-- The getDist helper of detectHand: Euclidean distance in the x-y plane. -/
noncomputable def getDist (p1 p2 : Landmark) : ℝ :=
  Real.sqrt ((p1.x - p2.x) ^ 2 + (p1.y - p2.y) ^ 2)

/-- Average distance of the five fingertips from the wrist. -/
noncomputable def avgDist (lm : HandLandmarks) : ℝ :=
  (getDist lm.thumbTip lm.wrist + getDist lm.indexTip lm.wrist +
   getDist lm.middleTip lm.wrist + getDist lm.ringTip lm.wrist +
   getDist lm.pinkyTip lm.wrist) / 5

/-- The landmark-to-openness computation inside detectHand:
remap avgDist linearly from [0.2, 0.55] onto [0,1] and clamp. -/
noncomputable def computeOpenness (lm : HandLandmarks) : ℝ :=
  clamp01 ((avgDist lm - 0.2) / (0.55 - 0.2))

/-- The module-level mutable state of visionService.ts: whether the
hand landmarker has been created (initializeVision has completed; the App
starts the loop only afterwards) and the memoized lastVideoTime
(initially -1). -/
structure VisionState where
  ready : Bool
  lastVideoTime : ℝ

/-- The record returned by detectHand. -/
structure DetectResult where
  openness : ℝ
  isDetected : Bool

/-- detectHand as explicit state passing. The external landmark detector
is an oracle argument: some landmark set when a hand is found on a fresh
frame, none otherwise. If the landmarker is missing the call returns
(0, false); if the frame timestamp equals the memoized lastVideoTime the
detector is not consulted and the call returns (0, false) without touching
the state; otherwise lastVideoTime is updated and the result reflects the
detection. -/
noncomputable def detectHand (vs : VisionState) (currentTime : ℝ)
    (det : Option HandLandmarks) : DetectResult × VisionState :=
  if vs.ready = false then (⟨0, false⟩, vs)
  else if currentTime ≠ vs.lastVideoTime then
    match det with
    | some lm => (⟨computeOpenness lm, true⟩, ⟨vs.ready, currentTime⟩)
    | none => (⟨0, false⟩, ⟨vs.ready, currentTime⟩)
  else (⟨0, false⟩, vs)

/-- One tick of the App.tsx loop: call detectHand, then update the openness
state: the detected value when isDetected, otherwise prev * 0.95. -/
noncomputable def appTick (vs : VisionState) (prev : ℝ) (currentTime : ℝ)
    (det : Option HandLandmarks) : VisionState × ℝ :=
  ((detectHand vs currentTime det).2,
   if (detectHand vs currentTime det).1.isDetected then
     (detectHand vs currentTime det).1.openness
   else prev * 0.95)

/-- A concrete open-hand landmark set: every fingertip at distance 0.55
from the wrist, so the average distance is 0.55 and the openness is 1. -/
def sampleOpenHand : HandLandmarks :=
  ⟨⟨0, 0⟩, ⟨0.55, 0⟩, ⟨0.55, 0⟩, ⟨0.55, 0⟩, ⟨0.55, 0⟩, ⟨0.55, 0⟩⟩

theorem avgDist_sampleOpenHand : avgDist sampleOpenHand = 0.55 := by
  unfold avgDist getDist sampleOpenHand
  simp only
  rw [show ((0.55 : ℝ) - 0) ^ 2 + ((0 : ℝ) - 0) ^ 2 = 0.55 ^ 2 by ring]
  rw [Real.sqrt_sq (by norm_num : (0 : ℝ) ≤ 0.55)]
  norm_num

theorem computeOpenness_sampleOpenHand : computeOpenness sampleOpenHand = 1 := by
  unfold computeOpenness clamp01
  rw [avgDist_sampleOpenHand]
  norm_num

/-! ### Claims about the extractor -/

/-- Claim C6: for every well-formed landmark set the extractor outputs
clamp((avgDist - 0.2)/(0.55 - 0.2), 0, 1); an average distance at most 0.2
gives 0, at least 0.55 gives 1, and exactly 0.375 gives 0.5. -/
theorem openness_remap (lm : HandLandmarks) :
    computeOpenness lm = clamp01 ((avgDist lm - 0.2) / (0.55 - 0.2)) ∧
    (avgDist lm ≤ 0.2 → computeOpenness lm = 0) ∧
    (0.55 ≤ avgDist lm → computeOpenness lm = 1) ∧
    (avgDist lm = 0.375 → computeOpenness lm = 0.5) := by
  refine ⟨rfl, ?_, ?_, ?_⟩
  · intro h
    unfold computeOpenness clamp01
    have hdiv : (avgDist lm - 0.2) / (0.55 - 0.2) ≤ 0 := by
      apply div_nonpos_of_nonpos_of_nonneg _ (by norm_num)
      linarith
    rw [min_eq_right (le_trans hdiv (by norm_num)), max_eq_left hdiv]
  · intro h
    unfold computeOpenness clamp01
    have hdiv : (1 : ℝ) ≤ (avgDist lm - 0.2) / (0.55 - 0.2) := by
      rw [le_div_iff₀ (by norm_num)]
      linarith
    rw [min_eq_left hdiv, max_eq_right (by norm_num : (0 : ℝ) ≤ 1)]
  · intro h
    unfold computeOpenness clamp01
    rw [h]
    norm_num

/-- Witness for C6: a hand with every fingertip at distance 0.375 from
the wrist yields openness 0.5. -/
theorem openness_remap_witness :
    computeOpenness ⟨⟨0, 0⟩, ⟨0.375, 0⟩, ⟨0.375, 0⟩, ⟨0.375, 0⟩, ⟨0.375, 0⟩, ⟨0.375, 0⟩⟩ =
      0.5 := by
  apply (openness_remap _).2.2.2
  unfold avgDist getDist
  simp only
  rw [show ((0.375 : ℝ) - 0) ^ 2 + ((0 : ℝ) - 0) ^ 2 = 0.375 ^ 2 by ring]
  rw [Real.sqrt_sq (by norm_num : (0 : ℝ) ≤ 0.375)]
  norm_num

/-- Claim C1 is violated by the code: here the behavior at the failing
input is evaluated. With the landmarker ready, lastVideoTime = 1 and
previous openness 1, an invocation on a frame whose timestamp is still 1
while a fully open hand is present returns isDetected = false, and the
loop applies the decay transition: the openness becomes 0.95, not the
unchanged 1 the claim requires. -/
theorem dedup_frame_triggers_decay :
    (appTick ⟨true, 1⟩ 1 1 (some sampleOpenHand)).2 = 0.95 ∧
    (appTick ⟨true, 1⟩ 1 1 (some sampleOpenHand)).2 ≠ 1 ∧
    (detectHand ⟨true, 1⟩ 1 (some sampleOpenHand)).1.isDetected = false := by
  have hd : detectHand ⟨true, 1⟩ 1 (some sampleOpenHand) = (⟨0, false⟩, ⟨true, 1⟩) := by
    unfold detectHand
    simp
  refine ⟨?_, ?_, ?_⟩
  · unfold appTick
    rw [hd]
    norm_num
  · unfold appTick
    rw [hd]
    norm_num
  · rw [hd]

/-- Claim C9 is violated by the code: two successive invocations of
detectHand on the same input (same frame timestamp, same open-hand
landmark set) return openness 1 and then openness 0 — the output depends
on the hidden lastVideoTime state. -/
theorem extractor_hidden_state_cex :
    (detectHand ⟨true, -1⟩ 0 (some sampleOpenHand)).1.openness = 1 ∧
    (detectHand (detectHand ⟨true, -1⟩ 0 (some sampleOpenHand)).2 0
      (some sampleOpenHand)).1.openness = 0 := by
  have h1 : detectHand ⟨true, -1⟩ 0 (some sampleOpenHand) =
      (⟨computeOpenness sampleOpenHand, true⟩, ⟨true, 0⟩) := by
    unfold detectHand
    norm_num
  have h2 : detectHand ⟨true, 0⟩ 0 (some sampleOpenHand) = (⟨0, false⟩, ⟨true, 0⟩) := by
    unfold detectHand
    simp
  constructor
  · rw [h1, computeOpenness_sampleOpenHand]
  · rw [h1]
    simp only
    rw [h2]

/-- Claim C9 amended: the landmark-to-openness computation itself carries
no hidden state — whenever the frame timestamp differs from the memoized
lastVideoTime (so extraction actually runs), the result of detectHand is
determined by the frame input alone, identically across any two ready
states. -/
theorem extractor_determinism (vs1 vs2 : VisionState) (currentTime : ℝ)
    (det : Option HandLandmarks) (h1 : vs1.ready = true) (h2 : vs2.ready = true)
    (hne1 : currentTime ≠ vs1.lastVideoTime) (hne2 : currentTime ≠ vs2.lastVideoTime) :
    (detectHand vs1 currentTime det).1 = (detectHand vs2 currentTime det).1 := by
  unfold detectHand
  rw [h1, if_neg (by simp), if_pos hne1, if_neg (by simp [h2]), if_pos hne2]
  cases det <;> rfl

/-- Witness for the amended C9: two different ready states with stale
timestamps -1 and 5 give the same result on a fresh frame at time 0. -/
theorem extractor_determinism_witness :
    (detectHand ⟨true, -1⟩ 0 (some sampleOpenHand)).1 =
      (detectHand ⟨true, 5⟩ 0 (some sampleOpenHand)).1 :=
  extractor_determinism ⟨true, -1⟩ ⟨true, 5⟩ 0 (some sampleOpenHand) rfl rfl
    (by norm_num) (by norm_num)

/-! ### Particle population generator (SaturnParticles.tsx useMemo) -/

/-- An RGB color triple. -/
structure Color3 where
  r : ℝ
  g : ℝ
  b : ℝ

/-- THREE.Color hex ffaa33: the fixed core color (components as hex/255). -/
noncomputable def colorCore : Color3 := ⟨255 / 255, 170 / 255, 51 / 255⟩

/-- THREE.Color hex dcb18c: the inner ring color. -/
noncomputable def colorRingInner : Color3 := ⟨220 / 255, 177 / 255, 140 / 255⟩

/-- THREE.Color hex 8e8090: the outer ring color. -/
noncomputable def colorRingOuter : Color3 := ⟨142 / 255, 128 / 255, 144 / 255⟩

/-- THREE.Color.lerpColors: componentwise c1 + (c2 - c1) * alpha. -/
noncomputable def lerpColors (c1 c2 : Color3) (alpha : ℝ) : Color3 :=
  ⟨c1.r + (c2.r - c1.r) * alpha, c1.g + (c2.g - c1.g) * alpha, c1.b + (c2.b - c1.b) * alpha⟩

/-- The static per-particle attributes produced by the generator. -/
structure Particle where
  size : ℝ
  speed : ℝ
  orbitRadius : ℝ
  angleOffset : ℝ
  randomSeed : ℝ
  color : Color3

/-- The particle count (COUNT = 15000). -/
def COUNT : ℕ := 15000

/-- The number of core particles: indices i with i < COUNT * 0.2 = 3000. -/
def coreCount : ℕ := 3000

/-- A core particle built from its stream of uniform draws d 0, d 1, ...
in source order: theta and phi (d 0, d 1) are drawn for the spherical bake
but unused downstream, then coreRad, speedVal, sizeVal, and the common
angle offset and random seed. -/
noncomputable def mkCore (d : ℕ → ℝ) : Particle :=
  { orbitRadius := d 2 * 2.5
    speed := 0.5 + d 3 * 0.5
    size := d 4 * 0.5 + 0.5
    angleOffset := d 5 * Real.pi * 2
    randomSeed := d 6
    color := colorCore }

/-- The ring radius as a function of the band selector and the single
in-band radius draw: band < 0.3 selects the B ring, band < 0.4 the gap,
and the rest the A ring. -/
noncomputable def ringRadius (band u : ℝ) : ℝ :=
  if band < 0.3 then 4.0 + u * 2.0
  else if band < 0.4 then 6.5 + u * 0.5
  else 7.0 + u * 3.0

/-- A ring particle built from its stream of uniform draws in source
order: the band selector, the (single) in-band radius draw, the size draw,
and the common angle offset and random seed. The speed is the fixed 2.0
and the color interpolates the ring endpoint colors at (radius - 4)/6. -/
noncomputable def mkRing (d : ℕ → ℝ) : Particle :=
  { orbitRadius := ringRadius (d 0) (d 1)
    speed := 2.0
    size := d 2 * 0.3 + 0.2
    angleOffset := d 3 * Real.pi * 2
    randomSeed := d 4
    color := lerpColors colorRingInner colorRingOuter ((ringRadius (d 0) (d 1) - 4.0) / 6.0) }

/-- Position in the global Math.random() stream at which the draws of particle i begin: each core particle consumes 7 draws, each ring particle 5. -/
def startIdx (i : ℕ) : ℕ :=
  if i < coreCount then 7 * i else 7 * coreCount + 5 * (i - coreCount)

/-- The generator: particle i is a core particle when i < 3000 (the first
20% of COUNT = 15000 by index), a ring particle otherwise, built from its
segment of the global draw stream s. -/
noncomputable def genParticle (s : ℕ → ℝ) (i : ℕ) : Particle :=
  if i < coreCount then mkCore (fun j => s (startIdx i + j))
  else mkRing (fun j => s (startIdx i + j))

/-! ### Claim about the generator -/

/-- Claim C7: with draws in [0,1), the generator makes exactly 3000 core
particles — the first 20% by index — with orbitRadius in [0, 2.5],
baseSpeed in [0.5, 1], size in [0.5, 1] and the fixed core color; every
other index yields a ring particle whose band selector u = s(startIdx i)
places orbitRadius in [4, 6] when u < 0.3, in [6.5, 7] when
0.3 ≤ u < 0.4, and in [7, 10] otherwise, with speed exactly 2, size in
[0.2, 0.5), and color the interpolation of the ring endpoint colors at
(orbitRadius - 4)/6. -/
theorem population_generation (s : ℕ → ℝ) (hs : ∀ j : ℕ, s j ∈ Set.Ico (0 : ℝ) 1) :
    ((Finset.range COUNT).filter (fun i => i < coreCount)).card = 3000 ∧
    (∀ i : ℕ, i < coreCount →
      (genParticle s i).orbitRadius ∈ Set.Icc (0 : ℝ) 2.5 ∧
      (genParticle s i).speed ∈ Set.Icc (0.5 : ℝ) 1 ∧
      (genParticle s i).size ∈ Set.Icc (0.5 : ℝ) 1 ∧
      (genParticle s i).color = colorCore) ∧
    (∀ i : ℕ, coreCount ≤ i → i < COUNT →
      (s (startIdx i) < 0.3 → (genParticle s i).orbitRadius ∈ Set.Icc (4 : ℝ) 6) ∧
      (0.3 ≤ s (startIdx i) → s (startIdx i) < 0.4 →
        (genParticle s i).orbitRadius ∈ Set.Icc (6.5 : ℝ) 7) ∧
      (0.4 ≤ s (startIdx i) → (genParticle s i).orbitRadius ∈ Set.Icc (7 : ℝ) 10) ∧
      (genParticle s i).speed = 2 ∧
      (genParticle s i).size ∈ Set.Ico (0.2 : ℝ) 0.5 ∧
      (genParticle s i).color =
        lerpColors colorRingInner colorRingOuter (((genParticle s i).orbitRadius - 4) / 6)) := by
  refine ⟨?_, ?_, ?_⟩
  · have hfilter : (Finset.range COUNT).filter (fun i => i < coreCount) =
        Finset.range coreCount := by
      ext i
      simp only [Finset.mem_filter, Finset.mem_range, COUNT, coreCount]
      omega
    rw [hfilter]
    simp [coreCount]
  · intro i hi
    have hgen : genParticle s i = mkCore (fun j => s (startIdx i + j)) := by
      unfold genParticle
      rw [if_pos hi]
    rw [hgen]
    unfold mkCore
    obtain ⟨h20, h21⟩ := hs (startIdx i + 2)
    obtain ⟨h30, h31⟩ := hs (startIdx i + 3)
    obtain ⟨h40, h41⟩ := hs (startIdx i + 4)
    refine ⟨⟨by nlinarith, by nlinarith⟩, ⟨by nlinarith, by nlinarith⟩,
      ⟨by nlinarith, by nlinarith⟩, rfl⟩
  · intro i hi _
    have hgen : genParticle s i = mkRing (fun j => s (startIdx i + j)) := by
      unfold genParticle
      rw [if_neg (by omega)]
    have hidx : startIdx i + 0 = startIdx i := Nat.add_zero _
    obtain ⟨h10, h11⟩ := hs (startIdx i + 1)
    obtain ⟨h20, h21⟩ := hs (startIdx i + 2)
    refine ⟨?_, ?_, ?_, ?_, ?_, ?_⟩
    · intro hb
      rw [hgen]
      unfold mkRing ringRadius
      simp only [hidx, if_pos hb]
      constructor <;> nlinarith
    · intro hb1 hb2
      rw [hgen]
      unfold mkRing ringRadius
      simp only [hidx, if_neg (not_lt.2 hb1), if_pos hb2]
      constructor <;> nlinarith
    · intro hb
      rw [hgen]
      unfold mkRing ringRadius
      simp only [hidx, if_neg (not_lt.2 (le_trans (show (0.3 : ℝ) ≤ 0.4 by norm_num) hb)),
        if_neg (not_lt.2 hb)]
      constructor <;> nlinarith
    · rw [hgen]
      unfold mkRing
      norm_num
    · rw [hgen]
      unfold mkRing
      exact ⟨by nlinarith, by nlinarith⟩
    · rw [hgen]
      unfold mkRing
      norm_num

/-- Witness for C7 with the all-zeros draw stream: particle 0 gets the
core color and particle 5000 is a ring particle with speed 2. -/
theorem population_generation_witness :
    (genParticle (fun _ => (0 : ℝ)) 0).color = colorCore ∧
    (genParticle (fun _ => (0 : ℝ)) 5000).speed = 2 := by
  have h := population_generation (fun _ => (0 : ℝ))
    (fun j => by constructor <;> norm_num)
  exact ⟨(h.2.1 0 (by norm_num [coreCount])).2.2.2,
    (h.2.2 5000 (by norm_num [coreCount]) (by norm_num [COUNT])).2.2.2.1⟩

end KeplersChaos
